import Mathlib

/-!
Shallow embedding of the deterministic matching core of
src/stock-token-exchange/cartesi-machine/offchain_logic.py.

Conventions of the embedding:
* Python unbounded non-negative integers (all order fields are decoded
  ABI uint256 values, and Python arithmetic on them never goes negative
  in the modelled code paths) are `Nat`.
* Addresses are `Nat` (only compared for equality / used as dict keys).
* The mutable global `config = ExchangeConfig()` is passed and returned
  explicitly: `handle_order_request` takes the configuration state left
  by the previous batch and returns the configuration state it leaves
  behind, mirroring the in-place mutation of the global object.
* The `while` loop of `match_orders_for_token` has no termination
  guarantee (the source can loop forever), so it is given fuel and
  returns `none` exactly when the fuel runs out before the loop exits.
* Python `list.sort(key=...)` is a stable sort by a total preorder; it
  is embedded as `List.insertionSort`, which is also stable, and any
  two stable sorts of the same list under the same total preorder
  produce the same output list.
* `eth_abi.decode` / `eth_abi.encode` are vendored library calls, not
  code of this repository; they are modelled at the granularity the
  control flow observes: a payload either carries the three-field
  layout, the two-field legacy layout, or is malformed, and encoding a
  trade array succeeds iff every field fits in uint256.
-/

namespace StockExchange

/-- Configuration state of the global `ExchangeConfig` object: build-time
fields loaded from environment / config files in `__init__`, plus the
runtime fields mutated by `update_runtime_config`. -/
@[ext]
structure ExchangeConfig where
  max_trades_per_batch : Nat
  min_trade_amount : Nat
  maker_fee_bps : Nat
  taker_fee_bps : Nat
  current_timestamp : Nat
  runtime_fee_bps : Nat
  runtime_min_trade_amount : Nat
deriving Repr, DecidableEq

/-- The end of `ExchangeConfig.__init__`: runtime fields start from the
build-time values (`runtime_fee_bps` defaults to the taker fee,
`runtime_min_trade_amount` to the build-time minimum, timestamp 0). -/
def ExchangeConfig.fromBuild (maxTrades minTrade makerBps takerBps : Nat) : ExchangeConfig :=
  { max_trades_per_batch := maxTrades
    min_trade_amount := minTrade
    maker_fee_bps := makerBps
    taker_fee_bps := takerBps
    current_timestamp := 0
    runtime_fee_bps := takerBps
    runtime_min_trade_amount := minTrade }

/-- The build defaults of the environment variables:
MAX_TRADES_PER_BATCH=100, MIN_TRADE_AMOUNT=1,
MAKER_FEE_BASIS_POINTS=10, TAKER_FEE_BASIS_POINTS=20. -/
def defaultConfig : ExchangeConfig := ExchangeConfig.fromBuild 100 1 10 20

/-- Method `ExchangeConfig.update_runtime_config`: the caller in
`handle_order_request` always passes all three keys, so all three
runtime fields are overwritten. -/
def ExchangeConfig.update_runtime_config (c : ExchangeConfig)
    (ts feeBps minTrade : Nat) : ExchangeConfig :=
  { c with current_timestamp := ts
           runtime_fee_bps := feeBps
           runtime_min_trade_amount := minTrade }

/-- Method `ExchangeConfig.get_effective_min_trade_amount`. -/
def ExchangeConfig.get_effective_min_trade_amount (c : ExchangeConfig) : Nat :=
  if 0 < c.runtime_min_trade_amount then c.runtime_min_trade_amount else c.min_trade_amount

/-- Method `ExchangeConfig.get_effective_fee_bps`. -/
def ExchangeConfig.get_effective_fee_bps (c : ExchangeConfig) : Nat :=
  if 0 < c.runtime_fee_bps then c.runtime_fee_bps else c.taker_fee_bps

/-- Method `ExchangeConfig.get_maker_fee_bps`. -/
def ExchangeConfig.get_maker_fee_bps (c : ExchangeConfig) : Nat := c.maker_fee_bps

/-- Method `ExchangeConfig.get_taker_fee_bps`. -/
def ExchangeConfig.get_taker_fee_bps (c : ExchangeConfig) : Nat := c.taker_fee_bps

/-- Function `calculate_trade_fee(trade_amount, fee_bps) = (trade_amount * fee_bps) // 10000`,
Python floor division on non-negative integers. -/
def calculate_trade_fee (trade_amount fee_bps : Nat) : Nat :=
  trade_amount * fee_bps / 10000

/-- One raw decoded order tuple
`(uint256 id, address user, address token, uint256 amount, uint256 price, bool isBuyOrder)`. -/
structure RawOrder where
  id : Nat
  user : Nat
  token : Nat
  amount : Nat
  price : Nat
  isBuy : Bool
deriving Repr, DecidableEq

/-- The order dict built in `handle_order_request` (both order loops build
the same shape, with `filled = 0` and the configured timestamp). -/
structure Order where
  id : Nat
  user : Nat
  token : Nat
  amount : Nat
  price : Nat
  isBuyOrder : Bool
  filled : Nat
  timestamp : Nat
deriving Repr, DecidableEq

/-- Construction of the order dict from a decoded tuple
(lines 208-212 / 226-230 of offchain_logic.py). -/
def rawToOrder (cfg : ExchangeConfig) (r : RawOrder) : Order :=
  { id := r.id
    user := r.user
    token := r.token
    amount := r.amount
    price := r.price
    isBuyOrder := r.isBuy
    filled := 0
    timestamp := cfg.current_timestamp }

/-- An output trade tuple
`(buyOrderId, sellOrderId, buyer, seller, token, price, quantity, totalFee)`. -/
structure TradeT where
  buyOrderId : Nat
  sellOrderId : Nat
  buyer : Nat
  seller : Nat
  token : Nat
  price : Nat
  quantity : Nat
  totalFee : Nat
deriving Repr, DecidableEq

/-- Maker price selection (lines 309-322): the buy order is the maker
exactly when `buy.id < sell.id`; the execution price is the maker's
limit price. -/
def tradePrice (buy sell : Order) : Nat :=
  if buy.id < sell.id then buy.price else sell.price

/-- The trade tuple appended by one crossing step (lines 305-342): price
by maker selection, fees from the build-time maker/taker rates on the
total trade value. -/
def mkTrade (cfg : ExchangeConfig) (buy sell : Order) (q : Nat) : TradeT :=
  let p := tradePrice buy sell
  let v := q * p
  let makerFee := calculate_trade_fee v cfg.get_maker_fee_bps
  let takerFee := calculate_trade_fee v cfg.get_taker_fee_bps
  { buyOrderId := buy.id
    sellOrderId := sell.id
    buyer := buy.user
    seller := sell.user
    token := buy.token
    price := p
    quantity := q
    totalFee := makerFee + takerFee }

/-- Python sort key `(-price, id)` for buys, as a total preorder:
price descending, then id ascending. -/
def BuyPriority (a b : Order) : Prop :=
  b.price < a.price ∨ (a.price = b.price ∧ a.id ≤ b.id)

/-- Python sort key `(price, id)` for sells: price ascending, then id
ascending. -/
def SellPriority (a b : Order) : Prop :=
  a.price < b.price ∨ (a.price = b.price ∧ a.id ≤ b.id)

instance : DecidableRel BuyPriority := fun a b => by
  unfold BuyPriority; infer_instance

instance : DecidableRel SellPriority := fun a b => by
  unfold SellPriority; infer_instance

instance : IsTotal Order BuyPriority := ⟨by intro a b; unfold BuyPriority; omega⟩

instance : IsTrans Order BuyPriority := ⟨by intro a b c; unfold BuyPriority; omega⟩

instance : IsTotal Order SellPriority := ⟨by intro a b; unfold SellPriority; omega⟩

instance : IsTrans Order SellPriority := ⟨by intro a b c; unfold SellPriority; omega⟩

/-- Python `buys.sort(key=lambda x: (-x["price"], x["id"]))` applied to the buy
side of the order list (stable sort by the total preorder). -/
def sortBuys (orders : List Order) : List Order :=
  List.insertionSort BuyPriority (orders.filter fun o => o.isBuyOrder)

/-- Python `sells.sort(key=lambda x: (x["price"], x["id"]))` applied to the sell
side of the order list. -/
def sortSells (orders : List Order) : List Order :=
  List.insertionSort SellPriority (orders.filter fun o => !o.isBuyOrder)

/-- State of the matching loop of `match_orders_for_token`: the two
sorted arrays (whose `filled` fields are mutated in place), the two
cursors, and the trades emitted so far in emission order. -/
structure MatchState where
  buys : List Order
  sells : List Order
  buyIdx : Nat
  sellIdx : Nat
  trades : List TradeT
deriving Repr, DecidableEq

/-- Result of one inspection of the loop head: either the loop exits
(cursor exhausted, or top prices no longer cross and the loop breaks),
or one iteration produces a successor state. -/
inductive StepResult where
  | done : StepResult
  | next : MatchState → StepResult
deriving Repr, DecidableEq

/-- The tradable quantity of the pair at the cursors (line 299):
`min(buy.amount - buy.filled, sell.amount - sell.filled)`. -/
def tradable (s : MatchState) (hb : s.buyIdx < s.buys.length)
    (hs : s.sellIdx < s.sells.length) : Nat :=
  min ((s.buys.get ⟨s.buyIdx, hb⟩).amount - (s.buys.get ⟨s.buyIdx, hb⟩).filled)
      ((s.sells.get ⟨s.sellIdx, hs⟩).amount - (s.sells.get ⟨s.sellIdx, hs⟩).filled)

/-- Successor state of an iteration that emits a trade (lines 304-351):
append the trade, add the quantity to both `filled` fields in place,
then advance each cursor whose order is now fully filled. -/
def tradeSucc (cfg : ExchangeConfig) (s : MatchState) (hb : s.buyIdx < s.buys.length)
    (hs : s.sellIdx < s.sells.length) : MatchState :=
  let buy := s.buys.get ⟨s.buyIdx, hb⟩
  let sell := s.sells.get ⟨s.sellIdx, hs⟩
  let q := tradable s hb hs
  { buys := s.buys.set s.buyIdx { buy with filled := buy.filled + q }
    sells := s.sells.set s.sellIdx { sell with filled := sell.filled + q }
    buyIdx := if buy.amount ≤ buy.filled + q then s.buyIdx + 1 else s.buyIdx
    sellIdx := if sell.amount ≤ sell.filled + q then s.sellIdx + 1 else s.sellIdx
    trades := s.trades ++ [mkTrade cfg buy sell q] }

/-- Successor state of an iteration whose tradable quantity is below the
minimum (lines 304, 347-351): no trade, no `filled` change, and each
cursor advances only if its order was already fully filled. -/
def skipSucc (s : MatchState) (hb : s.buyIdx < s.buys.length)
    (hs : s.sellIdx < s.sells.length) : MatchState :=
  let buy := s.buys.get ⟨s.buyIdx, hb⟩
  let sell := s.sells.get ⟨s.sellIdx, hs⟩
  { s with
    buyIdx := if buy.amount ≤ buy.filled then s.buyIdx + 1 else s.buyIdx
    sellIdx := if sell.amount ≤ sell.filled then s.sellIdx + 1 else s.sellIdx }

/-- One iteration of the `while` loop of `match_orders_for_token`
(lines 294-355): if both cursors are valid and the prices cross,
compute the tradable quantity; if it reaches the effective minimum,
emit the trade, otherwise skip; the loop exits when a cursor is
exhausted or the top prices no longer cross. -/
def matchStep (cfg : ExchangeConfig) (s : MatchState) : StepResult :=
  if hb : s.buyIdx < s.buys.length then
    if hs : s.sellIdx < s.sells.length then
      if (s.sells.get ⟨s.sellIdx, hs⟩).price ≤ (s.buys.get ⟨s.buyIdx, hb⟩).price then
        if cfg.get_effective_min_trade_amount ≤ tradable s hb hs then
          .next (tradeSucc cfg s hb hs)
        else
          .next (skipSucc s hb hs)
      else .done
    else .done
  else .done

/-- The `while` loop with fuel: `none` means the fuel ran out before the
loop exited (the source loop does not terminate on its own in that
case; it has no other exit). -/
def matchLoop (cfg : ExchangeConfig) : Nat → MatchState → Option MatchState
  | 0, _ => none
  | fuel + 1, s =>
    match matchStep cfg s with
    | .done => some s
    | .next s2 => matchLoop cfg fuel s2

/-- The loop state of `match_orders_for_token` just before the `while`
loop: sorted sides, both cursors at 0, no trades. -/
def initState (orders : List Order) : MatchState :=
  { buys := sortBuys orders
    sells := sortSells orders
    buyIdx := 0
    sellIdx := 0
    trades := [] }

/-- Function `match_orders_for_token`: split into buys/sells (filter preserves
list order, as the Python append loop does), stable-sort both sides,
and run the cursor loop from `(0, 0)` with no trades yet. The returned
state carries the emitted trade list (the Python return value) together
with the final content of the two mutated order arrays. -/
def match_orders_for_token (cfg : ExchangeConfig) (fuel : Nat) (orders : List Order) :
    Option MatchState :=
  matchLoop cfg fuel (initState orders)

/-- Insertion into `orders_by_token`: a Python dict keyed by token
address preserves insertion order of first occurrence, and each value
list preserves append order. -/
def insertOrder (groups : List (Nat × List Order)) (o : Order) : List (Nat × List Order) :=
  match groups with
  | [] => [(o.token, [o])]
  | (t, os) :: rest =>
    if t = o.token then (t, os ++ [o]) :: rest
    else (t, os) :: insertOrder rest o

/-- One of the two grouping loops of `handle_order_request`
(lines 207-240): build the order dict, drop it when its amount is below
the effective minimum (dust filter), otherwise append it to its token
group. -/
def addOrders (cfg : ExchangeConfig) (effMin : Nat) (groups : List (Nat × List Order))
    (raws : List RawOrder) : List (Nat × List Order) :=
  raws.foldl
    (fun g r =>
      let o := rawToOrder cfg r
      if o.amount < effMin then g else insertOrder g o)
    groups

/-- The batch-limiter loop of `handle_order_request` (lines 247-260),
carrying `total_processed` and the accumulated trade list: break when
the cap is already reached, otherwise match the group and append at
most the remaining capacity of its trades. `none` propagates a
non-terminating group match. -/
def processGroupsGo (cfg : ExchangeConfig) (fuel : Nat) :
    List (Nat × List Order) → Nat → List TradeT → Option (List TradeT)
  | [], _, acc => some acc
  | g :: rest, total, acc =>
    if cfg.max_trades_per_batch ≤ total then some acc
    else
      match match_orders_for_token cfg fuel g.2 with
      | none => none
      | some st =>
        processGroupsGo cfg fuel rest
          (total + (st.trades.take (cfg.max_trades_per_batch - total)).length)
          (acc ++ st.trades.take (cfg.max_trades_per_batch - total))

/-- The batch-limiter loop started from zero trades. -/
def processGroups (cfg : ExchangeConfig) (fuel : Nat) (groups : List (Nat × List Order)) :
    Option (List TradeT) :=
  processGroupsGo cfg fuel groups 0 []

/-- The uint256 range bound of the ABI wire format. -/
def UINT_BOUND : Nat := 2 ^ 256

/-- Modelled from the spec: `eth_abi.encode` (a vendored library, not
code of this repository) serializes one trade tuple iff every component
fits the fixed-width unsigned layout; otherwise it raises, which the
outer handler turns into a report. -/
def tradeEncodable (t : TradeT) : Bool :=
  t.buyOrderId < UINT_BOUND && t.sellOrderId < UINT_BOUND && t.buyer < UINT_BOUND &&
  t.seller < UINT_BOUND && t.token < UINT_BOUND && t.price < UINT_BOUND &&
  t.quantity < UINT_BOUND && t.totalFee < UINT_BOUND

/-- Modelled from the spec: the decode outcomes of an input payload that
the control flow of `handle_order_request` can observe through
`eth_abi.decode` (a vendored library, not code of this repository): it
carries the three-field layout, the two-field legacy layout, or matches
neither (including a malformed hex string). -/
inductive Payload where
  | full (buys sells : List RawOrder) (rc : Nat × Nat × Nat)
  | legacy (buys sells : List RawOrder)
  | malformed (msg : String)
deriving Repr, DecidableEq

/-- Modelled from the spec: decoding with `INPUT_PAYLOAD_DECODE_TYPES`
(the three-field layout) succeeds exactly on the three-field payload
and raises otherwise. -/
def decodeFull : Payload → Except String (List RawOrder × List RawOrder × (Nat × Nat × Nat))
  | .full b s rc => .ok (b, s, rc)
  | .legacy _ _ => .error "payload does not carry the runtime config layout"
  | .malformed m => .error m

/-- Modelled from the spec: decoding with the two-array legacy types;
only reached after the three-field decode failed. -/
def decodeLegacy : Payload → Except String (List RawOrder × List RawOrder)
  | .full _ _ _ => .error "payload does not carry the legacy layout"
  | .legacy b s => .ok (b, s)
  | .malformed m => .error m

/-- Result of `handle_order_request`: a notice carrying the encoded
trade array (modelled by the trade list itself, the encoder being
deterministic and injective on it), or a report carrying the error
message. -/
inductive HandleResult where
  | notice (trades : List TradeT)
  | report (msg : String)
deriving Repr, DecidableEq

/-- The grouping stage of `handle_order_request` (lines 202-240): the
effective minimum is computed once (line 204) and the buy orders are
grouped before the sell orders. -/
def batchGroups (cfg : ExchangeConfig) (rawBuys rawSells : List RawOrder) :
    List (Nat × List Order) :=
  addOrders cfg cfg.get_effective_min_trade_amount
    (addOrders cfg cfg.get_effective_min_trade_amount [] rawBuys) rawSells

/-- The post-decode body of `handle_order_request` (lines 202-265): dust
filter and grouping of buys then sells, batch-limited matching, and
encoding. `none` means a group's matching loop never terminates. An
encode failure raises and is caught by the outer handler (line 267),
producing a report. -/
def runBatch (cfg : ExchangeConfig) (fuel : Nat) (rawBuys rawSells : List RawOrder) :
    Option HandleResult :=
  match processGroups cfg fuel (batchGroups cfg rawBuys rawSells) with
  | none => none
  | some trades =>
    if trades.all tradeEncodable then some (.notice trades)
    else some (.report "Error processing order request: value out of uint256 range")

/-- Function `handle_order_request`, with the global configuration state passed
and returned explicitly: try the three-field decode and install its
runtime tuple into the configuration; on failure fall back to the
legacy decode under the configuration as it stands; if that also fails,
the exception reaches the outer handler and a report with the error
message is returned. -/
def handle_order_request (cfg : ExchangeConfig) (fuel : Nat) (p : Payload) :
    ExchangeConfig × Option HandleResult :=
  match decodeFull p with
  | .ok (rawBuys, rawSells, rc) =>
    let cfg2 := cfg.update_runtime_config rc.1 rc.2.1 rc.2.2
    (cfg2, runBatch cfg2 fuel rawBuys rawSells)
  | .error _ =>
    match decodeLegacy p with
    | .ok (rawBuys, rawSells) => (cfg, runBatch cfg fuel rawBuys rawSells)
    | .error e => (cfg, some (.report ("Error processing order request: " ++ e)))

/-- Everything of an order except its mutable `filled` field; the
matching loop never changes this part. -/
def stripFilled (o : Order) : Order := { o with filled := 0 }

/-- Total quantity a trade list allocates to the buy order with the
given id. -/
def buyAlloc (trades : List TradeT) (oid : Nat) : Nat :=
  ((trades.filter fun t => t.buyOrderId == oid).map fun t => t.quantity).sum

/-- Total quantity a trade list allocates to the sell order with the
given id. -/
def sellAlloc (trades : List TradeT) (oid : Nat) : Nat :=
  ((trades.filter fun t => t.sellOrderId == oid).map fun t => t.quantity).sum

/-- A trade is linked to the loop state that emitted it: its ids are the
ids of one buy-side and one sell-side array entry, and its price is the
maker-selected price of that pair. The matching loop only ever changes
`filled` fields, so this link is stable along the run. -/
def TradeLink (s : MatchState) (t : TradeT) : Prop :=
  ∃ (i j : Nat) (hi : i < s.buys.length) (hj : j < s.sells.length),
    t.buyOrderId = (s.buys.get ⟨i, hi⟩).id ∧
    t.sellOrderId = (s.sells.get ⟨j, hj⟩).id ∧
    t.price = tradePrice (s.buys.get ⟨i, hi⟩) (s.sells.get ⟨j, hj⟩)

/-- Conservation invariant of the matching loop: within each side the
order ids are distinct, and every array entry's `filled` equals the
total quantity the emitted trades allocate to its id, bounded by its
`amount`. -/
def AllocInv (s : MatchState) : Prop :=
  (s.buys.map Order.id).Nodup ∧ (s.sells.map Order.id).Nodup ∧
  (∀ (i : Nat) (hi : i < s.buys.length),
    buyAlloc s.trades (s.buys.get ⟨i, hi⟩).id = (s.buys.get ⟨i, hi⟩).filled ∧
    (s.buys.get ⟨i, hi⟩).filled ≤ (s.buys.get ⟨i, hi⟩).amount) ∧
  (∀ (j : Nat) (hj : j < s.sells.length),
    sellAlloc s.trades (s.sells.get ⟨j, hj⟩).id = (s.sells.get ⟨j, hj⟩).filled ∧
    (s.sells.get ⟨j, hj⟩).filled ≤ (s.sells.get ⟨j, hj⟩).amount)

/-- Helper for building concrete orders in concrete test inputs. -/
def mkOrder (i a p : Nat) (b : Bool) : Order :=
  { id := i
    user := 100 + i
    token := 7
    amount := a
    price := p
    isBuyOrder := b
    filled := 0
    timestamp := 0 }

/-- Scenario input of testable property 4 of the spec: buys with ids 1
and 2 at prices 10 and 12, one sell with id 3 at price 11 (quantities
all 100). -/
def scenario4Orders : List Order :=
  [mkOrder 1 100 10 true, mkOrder 2 100 12 true, mkOrder 3 100 11 false]

/-- A build configuration whose minimum trade amount is 10. -/
def stallConfig : ExchangeConfig := ExchangeConfig.fromBuild 100 10 10 20

/-- A crossing pair whose tradable quantity 5 is positive but below the
effective minimum 10 of `stallConfig`. -/
def stallOrders : List Order := [mkOrder 1 5 10 true, mkOrder 2 5 5 false]

/-- A basic crossing pair: buy id 1, quantity 100, price 10 against sell
id 2, quantity 50, price 9. -/
def wOrders : List Order := [mkOrder 1 100 10 true, mkOrder 2 50 9 false]

/-- The final matching state of `wOrders` under the default config. -/
def wSt : MatchState :=
  { buys := [{ id := 1, user := 101, token := 7, amount := 100, price := 10,
               isBuyOrder := true, filled := 50, timestamp := 0 }]
    sells := [{ id := 2, user := 102, token := 7, amount := 50, price := 9,
                isBuyOrder := false, filled := 50, timestamp := 0 }]
    buyIdx := 0
    sellIdx := 1
    trades := [{ buyOrderId := 1, sellOrderId := 2, buyer := 101, seller := 102,
                 token := 7, price := 10, quantity := 50, totalFee := 1 }] }

/-- A full-format payload with no orders whose runtime tuple sets the
minimum trade amount to 50. -/
def cexPayload1 : Payload := .full [] [] (0, 0, 50)

/-- A legacy payload with one crossing pair of quantity 10: matched
under the default minimum 1, dust-filtered under a carried-over
minimum 50. -/
def cexPayload2 : Payload :=
  .legacy [{ id := 1, user := 11, token := 7, amount := 10, price := 10, isBuy := true }]
          [{ id := 2, user := 12, token := 7, amount := 10, price := 5, isBuy := false }]

/-- The single trade produced by `cexPayload2` under the default
configuration (value 100, both fees floor to 0). -/
def wTrade2 : TradeT :=
  { buyOrderId := 1, sellOrderId := 2, buyer := 11, seller := 12,
    token := 7, price := 10, quantity := 10, totalFee := 0 }

/-- A buy and a sell order sharing the id 7 (the decoder does not
enforce id uniqueness across the two input arrays). -/
def eqIdBuy : Order := mkOrder 7 100 10 true

/-- The sell half of the equal-id pair, at limit price 8. -/
def eqIdSell : Order := mkOrder 7 100 8 false

theorem list_set_get_self {α : Type _} (l : List α) (i : Nat) (hi : i < l.length) :
    l.set i (l.get ⟨i, hi⟩) = l := by
  apply List.ext_getElem
  · simp
  · intro n h1 h2
    rw [List.getElem_set]
    split
    · subst n; simp
    · rfl

theorem map_set_filled {α : Type _} (g : Order → α)
    (hg : ∀ (o : Order) (f : Nat), g { o with filled := f } = g o)
    (l : List Order) (i : Nat) (hi : i < l.length) (f : Nat) :
    (l.set i { l.get ⟨i, hi⟩ with filled := f }).map g = l.map g := by
  rw [List.map_set, hg]
  have h2 : i < (l.map g).length := by simpa using hi
  have h3 : g (l.get ⟨i, hi⟩) = (l.map g).get ⟨i, h2⟩ := by simp
  rw [h3, list_set_get_self]

theorem matchStep_next_elim (cfg : ExchangeConfig) (s s2 : MatchState)
    (h : matchStep cfg s = .next s2) :
    ∃ (hb : s.buyIdx < s.buys.length) (hs : s.sellIdx < s.sells.length),
      (s.sells.get ⟨s.sellIdx, hs⟩).price ≤ (s.buys.get ⟨s.buyIdx, hb⟩).price ∧
      ((cfg.get_effective_min_trade_amount ≤ tradable s hb hs ∧ s2 = tradeSucc cfg s hb hs) ∨
       (tradable s hb hs < cfg.get_effective_min_trade_amount ∧ s2 = skipSucc s hb hs)) := by
  unfold matchStep at h
  by_cases hb : s.buyIdx < s.buys.length
  · rw [dif_pos hb] at h
    by_cases hs : s.sellIdx < s.sells.length
    · rw [dif_pos hs] at h
      by_cases hcross :
          (s.sells.get ⟨s.sellIdx, hs⟩).price ≤ (s.buys.get ⟨s.buyIdx, hb⟩).price
      · rw [if_pos hcross] at h
        by_cases hq : cfg.get_effective_min_trade_amount ≤ tradable s hb hs
        · rw [if_pos hq] at h
          exact ⟨hb, hs, hcross, Or.inl ⟨hq, (StepResult.next.inj h).symm⟩⟩
        · rw [if_neg hq] at h
          exact ⟨hb, hs, hcross, Or.inr ⟨by omega, (StepResult.next.inj h).symm⟩⟩
      · rw [if_neg hcross] at h; cases h
    · rw [dif_neg hs] at h; cases h
  · rw [dif_neg hb] at h; cases h

theorem matchLoop_inv (cfg : ExchangeConfig) (P : MatchState → Prop)
    (hstep : ∀ s s2, matchStep cfg s = .next s2 → P s → P s2) :
    ∀ (fuel : Nat) (s st : MatchState), matchLoop cfg fuel s = some st → P s → P st := by
  intro fuel
  induction fuel with
  | zero => intro s st h; cases h
  | succ n ih =>
    intro s st h hP
    unfold matchLoop at h
    cases hms : matchStep cfg s with
    | done =>
      rw [hms] at h
      injection h with h2
      subst h2
      exact hP
    | next s2 =>
      rw [hms] at h
      exact ih s2 st h (hstep s s2 hms hP)

theorem matchStep_stall (cfg : ExchangeConfig) (s : MatchState)
    (hb : s.buyIdx < s.buys.length) (hs : s.sellIdx < s.sells.length)
    (hcross : (s.sells.get ⟨s.sellIdx, hs⟩).price ≤ (s.buys.get ⟨s.buyIdx, hb⟩).price)
    (hpos : 0 < tradable s hb hs)
    (hlt : tradable s hb hs < cfg.get_effective_min_trade_amount) :
    matchStep cfg s = .next s := by
  have hp : 0 < (s.buys.get ⟨s.buyIdx, hb⟩).amount - (s.buys.get ⟨s.buyIdx, hb⟩).filled ∧
      0 < (s.sells.get ⟨s.sellIdx, hs⟩).amount - (s.sells.get ⟨s.sellIdx, hs⟩).filled :=
    lt_min_iff.mp hpos
  unfold matchStep
  rw [dif_pos hb, dif_pos hs, if_pos hcross, if_neg (by omega)]
  show StepResult.next
      { s with
        buyIdx := if (s.buys.get ⟨s.buyIdx, hb⟩).amount ≤ (s.buys.get ⟨s.buyIdx, hb⟩).filled
          then s.buyIdx + 1 else s.buyIdx
        sellIdx := if (s.sells.get ⟨s.sellIdx, hs⟩).amount ≤ (s.sells.get ⟨s.sellIdx, hs⟩).filled
          then s.sellIdx + 1 else s.sellIdx } = StepResult.next s
  rw [if_neg (by omega), if_neg (by omega)]

theorem matchLoop_stall (cfg : ExchangeConfig) (s : MatchState)
    (hstall : matchStep cfg s = .next s) :
    ∀ fuel, matchLoop cfg fuel s = none := by
  intro fuel
  induction fuel with
  | zero => rfl
  | succ n ih =>
    unfold matchLoop
    rw [hstall]
    exact ih

/-- C2: if the matching loop faces a crossing pair whose tradable
quantity is positive but below the effective minimum, the iteration
emits no trade and advances neither cursor (the step maps the state to
itself), and consequently `match_orders_for_token` runs out of any
amount of fuel on such an input: the source loop never terminates. -/
theorem below_min_crossing_pair_diverges (cfg : ExchangeConfig) (orders : List Order)
    (hb : 0 < (sortBuys orders).length) (hs : 0 < (sortSells orders).length)
    (hcross : ((sortSells orders).get ⟨0, hs⟩).price ≤ ((sortBuys orders).get ⟨0, hb⟩).price)
    (hpos : 0 < tradable (initState orders) hb hs)
    (hlt : tradable (initState orders) hb hs < cfg.get_effective_min_trade_amount) :
    matchStep cfg (initState orders) = .next (initState orders) ∧
    ∀ fuel, match_orders_for_token cfg fuel orders = none := by
  have h1 : matchStep cfg (initState orders) = .next (initState orders) :=
    matchStep_stall cfg (initState orders) hb hs hcross hpos hlt
  exact ⟨h1, fun fuel => matchLoop_stall cfg (initState orders) h1 fuel⟩

theorem below_min_crossing_pair_diverges_witness :
    (0 < (sortBuys stallOrders).length) ∧ (0 < (sortSells stallOrders).length) ∧
    (((sortSells stallOrders).get ⟨0, by decide⟩).price ≤
      ((sortBuys stallOrders).get ⟨0, by decide⟩).price) ∧
    (0 < tradable (initState stallOrders) (by decide) (by decide)) ∧
    (tradable (initState stallOrders) (by decide) (by decide) <
      stallConfig.get_effective_min_trade_amount) ∧
    (matchStep stallConfig (initState stallOrders) = .next (initState stallOrders) ∧
      ∀ fuel, match_orders_for_token stallConfig fuel stallOrders = none) :=
  ⟨by decide, by decide, by decide, by decide, by decide,
    below_min_crossing_pair_diverges stallConfig stallOrders (by decide) (by decide)
      (by decide) (by decide) (by decide)⟩

/-- C9: when the matched buy and sell orders share the same id, the
maker test `buy.id < sell.id` is false, so the sell order is treated as
the maker and the execution price is the sell order's limit price. -/
theorem equal_id_sell_is_maker (cfg : ExchangeConfig) (buy sell : Order) (q : Nat)
    (h : buy.id = sell.id) :
    ¬ buy.id < sell.id ∧ (mkTrade cfg buy sell q).price = sell.price := by
  constructor
  · omega
  · show tradePrice buy sell = sell.price
    unfold tradePrice
    rw [if_neg (by omega)]

theorem equal_id_sell_is_maker_witness :
    eqIdBuy.id = eqIdSell.id ∧
    (¬ eqIdBuy.id < eqIdSell.id ∧
      (mkTrade defaultConfig eqIdBuy eqIdSell 5).price = eqIdSell.price) :=
  ⟨rfl, equal_id_sell_is_maker defaultConfig eqIdBuy eqIdSell 5 rfl⟩

theorem matchStep_trades_pred (cfg : ExchangeConfig) (P : TradeT → Prop)
    (hmk : ∀ b sl q, P (mkTrade cfg b sl q)) :
    ∀ s s2, matchStep cfg s = .next s2 → (∀ t ∈ s.trades, P t) → ∀ t ∈ s2.trades, P t := by
  intro s s2 h hall t ht
  obtain ⟨hb, hs, _, hcase⟩ := matchStep_next_elim cfg s s2 h
  rcases hcase with ⟨_, rfl⟩ | ⟨_, rfl⟩
  · rcases List.mem_append.mp
      (show t ∈ s.trades ++ [mkTrade cfg (s.buys.get ⟨s.buyIdx, hb⟩)
        (s.sells.get ⟨s.sellIdx, hs⟩) (tradable s hb hs)] from ht) with h1 | h1
    · exact hall t h1
    · rw [List.mem_singleton.mp h1]
      exact hmk _ _ _
  · exact hall t ht

/-- C6: every trade emitted by the matching loop has
`totalFee = floor(tradeValue * makerBps / 10000) + floor(tradeValue * takerBps / 10000)`
with `tradeValue = quantity * executionPrice` in exact natural-number
arithmetic, where the rates are the configured maker and taker
basis-point rates. -/
theorem fee_additivity (cfg : ExchangeConfig) (fuel : Nat) (orders : List Order)
    (st : MatchState) (h : match_orders_for_token cfg fuel orders = some st) :
    ∀ t ∈ st.trades,
      t.totalFee = calculate_trade_fee (t.quantity * t.price) cfg.get_maker_fee_bps +
        calculate_trade_fee (t.quantity * t.price) cfg.get_taker_fee_bps := by
  refine matchLoop_inv cfg
    (fun s => ∀ t ∈ s.trades,
      t.totalFee = calculate_trade_fee (t.quantity * t.price) cfg.get_maker_fee_bps +
        calculate_trade_fee (t.quantity * t.price) cfg.get_taker_fee_bps)
    (matchStep_trades_pred cfg _ ?_) fuel (initState orders) st h ?_
  · intro b sl q
    rfl
  · intro t ht
    cases ht

theorem fee_additivity_witness :
    (match_orders_for_token defaultConfig 10 wOrders = some wSt) ∧
    ∀ t ∈ wSt.trades,
      t.totalFee = calculate_trade_fee (t.quantity * t.price) defaultConfig.get_maker_fee_bps +
        calculate_trade_fee (t.quantity * t.price) defaultConfig.get_taker_fee_bps :=
  ⟨by decide, fee_additivity defaultConfig 10 wOrders wSt (by decide)⟩

/-- C8: within an instrument group the buys are sorted by price
descending with ties broken by id ascending, the sells by price
ascending with ties broken by id ascending, and matching starts from
the tops; on buys at prices 10 (id 1) and 12 (id 2) against one sell at
price 11 (id 3), the single emitted trade pairs the higher-priced buy
id 2 with the sell despite its larger id. -/
theorem price_time_priority_sorting :
    (∀ orders : List Order, List.Sorted BuyPriority (sortBuys orders) ∧
      List.Sorted SellPriority (sortSells orders)) ∧
    (match_orders_for_token defaultConfig 10 scenario4Orders).map
        (fun st => st.trades.map fun t => (t.buyOrderId, t.sellOrderId, t.price, t.quantity))
      = some [(2, 3, 12, 100)] := by
  constructor
  · intro orders
    exact ⟨List.sorted_insertionSort BuyPriority _, List.sorted_insertionSort SellPriority _⟩
  · decide

theorem matchStep_fee_irrel (cfg : ExchangeConfig) (f : Nat) (s : MatchState) :
    matchStep { cfg with runtime_fee_bps := f } s = matchStep cfg s := rfl

theorem matchLoop_fee_irrel (cfg : ExchangeConfig) (f : Nat) :
    ∀ (fuel : Nat) (s : MatchState),
      matchLoop { cfg with runtime_fee_bps := f } fuel s = matchLoop cfg fuel s := by
  intro fuel
  induction fuel with
  | zero => intro s; rfl
  | succ n ih =>
    intro s
    unfold matchLoop
    rw [matchStep_fee_irrel]
    cases matchStep cfg s with
    | done => rfl
    | next s2 => exact ih s2

theorem match_orders_for_token_fee_irrel (cfg : ExchangeConfig) (f : Nat) (fuel : Nat)
    (orders : List Order) :
    match_orders_for_token { cfg with runtime_fee_bps := f } fuel orders =
    match_orders_for_token cfg fuel orders :=
  matchLoop_fee_irrel cfg f fuel (initState orders)

theorem processGroupsGo_fee_irrel (cfg : ExchangeConfig) (f : Nat) (fuel : Nat) :
    ∀ (groups : List (Nat × List Order)) (total : Nat) (acc : List TradeT),
      processGroupsGo { cfg with runtime_fee_bps := f } fuel groups total acc =
      processGroupsGo cfg fuel groups total acc := by
  intro groups
  induction groups with
  | nil => intro total acc; rfl
  | cons g rest ih =>
    intro total acc
    show (if cfg.max_trades_per_batch ≤ total then some acc
        else
          match match_orders_for_token { cfg with runtime_fee_bps := f } fuel g.2 with
          | none => none
          | some st =>
            processGroupsGo { cfg with runtime_fee_bps := f } fuel rest
              (total + (st.trades.take (cfg.max_trades_per_batch - total)).length)
              (acc ++ st.trades.take (cfg.max_trades_per_batch - total)))
      = (if cfg.max_trades_per_batch ≤ total then some acc
        else
          match match_orders_for_token cfg fuel g.2 with
          | none => none
          | some st =>
            processGroupsGo cfg fuel rest
              (total + (st.trades.take (cfg.max_trades_per_batch - total)).length)
              (acc ++ st.trades.take (cfg.max_trades_per_batch - total)))
    rw [match_orders_for_token_fee_irrel]
    by_cases hc : cfg.max_trades_per_batch ≤ total
    · rw [if_pos hc, if_pos hc]
    · rw [if_neg hc, if_neg hc]
      cases match_orders_for_token cfg fuel g.2 with
      | none => rfl
      | some st => exact ih _ _

theorem runBatch_fee_irrel (cfg : ExchangeConfig) (f : Nat) (fuel : Nat)
    (b s : List RawOrder) :
    runBatch { cfg with runtime_fee_bps := f } fuel b s = runBatch cfg fuel b s := by
  show (match processGroupsGo { cfg with runtime_fee_bps := f } fuel
        (batchGroups cfg b s) 0 [] with
      | none => none
      | some trades =>
        if trades.all tradeEncodable then some (HandleResult.notice trades)
        else some (.report "Error processing order request: value out of uint256 range"))
    = (match processGroupsGo cfg fuel (batchGroups cfg b s) 0 [] with
      | none => none
      | some trades =>
        if trades.all tradeEncodable then some (HandleResult.notice trades)
        else some (.report "Error processing order request: value out of uint256 range"))
  rw [processGroupsGo_fee_irrel]

/-- C10: the emitted result of a successfully decoded full-format batch
does not depend on the runtime tuple's feeBasisPoints field: the
matching path always charges the build-time maker and taker rates and
never consults the effective-fee accessor, so any two values of that
field produce identical output. -/
theorem runtime_fee_bps_noninterference (cfg : ExchangeConfig) (fuel : Nat)
    (b s : List RawOrder) (t f1 f2 m : Nat) :
    (handle_order_request cfg fuel (.full b s (t, f1, m))).2 =
    (handle_order_request cfg fuel (.full b s (t, f2, m))).2 := by
  show runBatch (cfg.update_runtime_config t f1 m) fuel b s =
    runBatch (cfg.update_runtime_config t f2 m) fuel b s
  exact (runBatch_fee_irrel (cfg.update_runtime_config t f1 m) f2 fuel b s).symm

/-- C7: `handle_order_request` first attempts the three-field decode and
runs the batch under the updated runtime configuration; if it fails, it
falls back to the two-field legacy decode, running the batch with the
configuration unchanged (no runtime tuple installed); if both decodes
fail, the batch is fatal and the result is a report carrying the error
message, never a trade array. -/
theorem decode_fallback_and_fatal_report (cfg : ExchangeConfig) (fuel : Nat) (p : Payload) :
    (∀ b s rc, decodeFull p = .ok (b, s, rc) →
      handle_order_request cfg fuel p =
        (cfg.update_runtime_config rc.1 rc.2.1 rc.2.2,
         runBatch (cfg.update_runtime_config rc.1 rc.2.1 rc.2.2) fuel b s)) ∧
    (∀ e b s, decodeFull p = .error e → decodeLegacy p = .ok (b, s) →
      handle_order_request cfg fuel p = (cfg, runBatch cfg fuel b s)) ∧
    (∀ e e2, decodeFull p = .error e → decodeLegacy p = .error e2 →
      handle_order_request cfg fuel p =
        (cfg, some (.report ("Error processing order request: " ++ e2)))) := by
  refine ⟨?_, ?_, ?_⟩
  · intro b s rc hdec
    unfold handle_order_request
    rw [hdec]
  · intro e b s h1 h2
    unfold handle_order_request
    rw [h1, h2]
  · intro e e2 h1 h2
    unfold handle_order_request
    rw [h1, h2]

theorem decode_fallback_and_fatal_report_witness :
    decodeFull (Payload.malformed "bad hex") = .error "bad hex" ∧
    decodeLegacy (Payload.malformed "bad hex") = .error "bad hex" ∧
    handle_order_request defaultConfig 1 (Payload.malformed "bad hex") =
      (defaultConfig, some (.report ("Error processing order request: " ++ "bad hex"))) :=
  ⟨rfl, rfl,
    (decode_fallback_and_fatal_report defaultConfig 1 (Payload.malformed "bad hex")).2.2
      "bad hex" "bad hex" rfl rfl⟩

theorem processGroupsGo_length_le (cfg : ExchangeConfig) (fuel : Nat) :
    ∀ (groups : List (Nat × List Order)) (total : Nat) (acc : List TradeT) (res : List TradeT),
      acc.length = total → total ≤ cfg.max_trades_per_batch →
      processGroupsGo cfg fuel groups total acc = some res →
      res.length ≤ cfg.max_trades_per_batch := by
  intro groups
  induction groups with
  | nil =>
    intro total acc res hlen hle h
    injection h with h2
    subst h2
    omega
  | cons g rest ih =>
    intro total acc res hlen hle h
    unfold processGroupsGo at h
    by_cases hc : cfg.max_trades_per_batch ≤ total
    · rw [if_pos hc] at h
      injection h with h2
      subst h2
      omega
    · rw [if_neg hc] at h
      cases hmt : match_orders_for_token cfg fuel g.2 with
      | none => rw [hmt] at h; cases h
      | some st =>
        rw [hmt] at h
        refine ih _ _ res ?_ ?_ h
        · rw [List.length_append, hlen]
        · have h4 := List.length_take (cfg.max_trades_per_batch - total) st.trades
          omega

theorem runBatch_notice_cap (cfg : ExchangeConfig) (fuel : Nat) (b s : List RawOrder)
    (ts : List TradeT) (h : runBatch cfg fuel b s = some (.notice ts)) :
    ts.length ≤ cfg.max_trades_per_batch := by
  unfold runBatch at h
  split at h
  · cases h
  · rename_i trades hpg
    split at h
    · injection h with h2
      have h3 := HandleResult.notice.inj h2
      subst h3
      exact processGroupsGo_length_le cfg fuel (batchGroups cfg b s) 0 [] trades rfl
        (Nat.zero_le _) hpg
    · injection h with h2
      injection h2

/-- C3: whenever `handle_order_request` returns a notice, the trade list
it carries has at most `maxTradesPerBatch` entries, counted globally:
the batch-limiter loop truncates each group's trades to the remaining
budget before appending them. -/
theorem batch_trade_cap (cfg : ExchangeConfig) (fuel : Nat) (p : Payload)
    (cfg2 : ExchangeConfig) (ts : List TradeT)
    (h : handle_order_request cfg fuel p = (cfg2, some (.notice ts))) :
    ts.length ≤ cfg.max_trades_per_batch := by
  cases p with
  | full b s rc =>
    have h2 : runBatch (cfg.update_runtime_config rc.1 rc.2.1 rc.2.2) fuel b s =
        some (.notice ts) := congrArg Prod.snd h
    exact runBatch_notice_cap (cfg.update_runtime_config rc.1 rc.2.1 rc.2.2) fuel b s ts h2
  | legacy b s =>
    have h2 : runBatch cfg fuel b s = some (.notice ts) := congrArg Prod.snd h
    exact runBatch_notice_cap cfg fuel b s ts h2
  | malformed m =>
    have h2 : some (HandleResult.report ("Error processing order request: " ++ m)) =
        some (.notice ts) := congrArg Prod.snd h
    injection h2 with h3
    injection h3

theorem batch_trade_cap_witness :
    (handle_order_request defaultConfig 10 cexPayload2 =
      (defaultConfig, some (.notice [wTrade2]))) ∧
    ([wTrade2] : List TradeT).length ≤ defaultConfig.max_trades_per_batch :=
  ⟨by decide, batch_trade_cap defaultConfig 10 cexPayload2 defaultConfig [wTrade2] (by decide)⟩

theorem handle_preserves_build (cfg : ExchangeConfig) (fuel : Nat) (p : Payload) :
    (handle_order_request cfg fuel p).1.max_trades_per_batch = cfg.max_trades_per_batch ∧
    (handle_order_request cfg fuel p).1.min_trade_amount = cfg.min_trade_amount ∧
    (handle_order_request cfg fuel p).1.maker_fee_bps = cfg.maker_fee_bps ∧
    (handle_order_request cfg fuel p).1.taker_fee_bps = cfg.taker_fee_bps := by
  cases p <;> exact ⟨rfl, rfl, rfl, rfl⟩

/-- C5 counterexample: the claim fails on the code. A full-format batch
that sets the runtime minimum trade amount to 50 mutates the global
configuration, and a later legacy-format batch is processed under that
carried-over minimum (its quantity-10 pair is dust-filtered away)
instead of under the fresh default minimum 1 (where it trades). -/
theorem runtime_config_survives_batch_cex :
    (handle_order_request (handle_order_request defaultConfig 10 cexPayload1).1 10
        cexPayload2).2 ≠
    (handle_order_request defaultConfig 10 cexPayload2).2 := by
  decide

/-- C5 amended: only build-time fields are immutable across batches; a
full-format payload overwrites the whole runtime tuple, so a
full-format batch after any earlier batch yields exactly the result of
running it alone from build defaults, while a legacy-format payload is
processed under whatever runtime overrides the previous batch left in
the configuration (see the counterexample). -/
theorem full_format_batch_unaffected_by_prior_state (fuel1 fuel2 : Nat) (p1 : Payload)
    (b s : List RawOrder) (rc : Nat × Nat × Nat) :
    (handle_order_request (handle_order_request defaultConfig fuel1 p1).1 fuel2
        (.full b s rc)).2 =
    (handle_order_request defaultConfig fuel2 (.full b s rc)).2 := by
  have hb := handle_preserves_build defaultConfig fuel1 p1
  have heq : ((handle_order_request defaultConfig fuel1 p1).1).update_runtime_config
      rc.1 rc.2.1 rc.2.2 = defaultConfig.update_runtime_config rc.1 rc.2.1 rc.2.2 := by
    apply ExchangeConfig.ext <;>
      simp [ExchangeConfig.update_runtime_config, hb.1, hb.2.1, hb.2.2.1, hb.2.2.2]
  show runBatch (((handle_order_request defaultConfig fuel1 p1).1).update_runtime_config
      rc.1 rc.2.1 rc.2.2) fuel2 b s =
    runBatch (defaultConfig.update_runtime_config rc.1 rc.2.1 rc.2.2) fuel2 b s
  rw [heq]

theorem get_set_self {α : Type _} (l : List α) (i : Nat) (a : α)
    (h : i < (l.set i a).length) : (l.set i a).get ⟨i, h⟩ = a := by
  simp [List.get_eq_getElem, List.getElem_set_self]

theorem get_set_ne {α : Type _} (l : List α) (i k : Nat) (a : α) (hik : i ≠ k)
    (hk : k < (l.set i a).length) (hk2 : k < l.length) :
    (l.set i a).get ⟨k, hk⟩ = l.get ⟨k, hk2⟩ := by
  simp [List.get_eq_getElem, List.getElem_set_ne hik]

theorem map_eq_length {α β : Type _} (g : α → β) {l l2 : List α}
    (h : l.map g = l2.map g) : l.length = l2.length := by
  have h2 := congrArg List.length h
  simpa using h2

theorem map_eq_get {α β : Type _} (g : α → β) {l l2 : List α}
    (h : l.map g = l2.map g) (i : Nat) (hi : i < l.length) (hi2 : i < l2.length) :
    g (l.get ⟨i, hi⟩) = g (l2.get ⟨i, hi2⟩) := by
  have h2 : (l.map g)[i]? = (l2.map g)[i]? := by rw [h]
  rw [List.getElem?_map, List.getElem?_map, List.getElem?_eq_getElem hi,
    List.getElem?_eq_getElem hi2] at h2
  simpa [List.get_eq_getElem] using h2

theorem tradePrice_congr {a a2 b b2 : Order} (h1 : a.id = a2.id) (h2 : a.price = a2.price)
    (h3 : b.id = b2.id) (h4 : b.price = b2.price) : tradePrice a b = tradePrice a2 b2 := by
  unfold tradePrice
  rw [h1, h2, h3, h4]

theorem strip_id {a b : Order} (h : stripFilled a = stripFilled b) : a.id = b.id := by
  have h2 := congrArg Order.id h
  exact h2

theorem strip_price {a b : Order} (h : stripFilled a = stripFilled b) : a.price = b.price := by
  have h2 := congrArg Order.price h
  exact h2

theorem map_id_eq_of_strip {l l2 : List Order}
    (h : l.map stripFilled = l2.map stripFilled) :
    l.map Order.id = l2.map Order.id := by
  have h2 := congrArg (List.map Order.id) h
  rw [List.map_map, List.map_map] at h2
  exact h2

theorem nodup_id_ne {l : List Order} (h : (l.map Order.id).Nodup) {i k : Nat}
    (hi : i < l.length) (hk : k < l.length) (hik : i ≠ k) :
    (l.get ⟨i, hi⟩).id ≠ (l.get ⟨k, hk⟩).id := by
  intro he
  apply hik
  have hi2 : i < (l.map Order.id).length := by simpa using hi
  have hk2 : k < (l.map Order.id).length := by simpa using hk
  have key : (l.map Order.id).get ⟨i, hi2⟩ = (l.map Order.id).get ⟨k, hk2⟩ := by
    rw [List.get_eq_getElem, List.get_eq_getElem, List.getElem_map, List.getElem_map]
    rw [List.get_eq_getElem, List.get_eq_getElem] at he
    exact he
  have h2 := (List.Nodup.get_inj_iff h).mp key
  exact congrArg Fin.val h2

theorem buyAlloc_append (ts : List TradeT) (tr : TradeT) (oid : Nat) :
    buyAlloc (ts ++ [tr]) oid =
      buyAlloc ts oid + (if tr.buyOrderId = oid then tr.quantity else 0) := by
  unfold buyAlloc
  rw [List.filter_append]
  by_cases hc : tr.buyOrderId = oid
  · simp [hc]
  · simp [hc]

theorem sellAlloc_append (ts : List TradeT) (tr : TradeT) (oid : Nat) :
    sellAlloc (ts ++ [tr]) oid =
      sellAlloc ts oid + (if tr.sellOrderId = oid then tr.quantity else 0) := by
  unfold sellAlloc
  rw [List.filter_append]
  by_cases hc : tr.sellOrderId = oid
  · simp [hc]
  · simp [hc]

theorem buyAlloc_append_eq (ts : List TradeT) (tr : TradeT) (oid : Nat)
    (h : tr.buyOrderId = oid) :
    buyAlloc (ts ++ [tr]) oid = buyAlloc ts oid + tr.quantity := by
  rw [buyAlloc_append, if_pos h]

theorem buyAlloc_append_ne (ts : List TradeT) (tr : TradeT) (oid : Nat)
    (h : tr.buyOrderId ≠ oid) :
    buyAlloc (ts ++ [tr]) oid = buyAlloc ts oid := by
  rw [buyAlloc_append, if_neg h]
  omega

theorem sellAlloc_append_eq (ts : List TradeT) (tr : TradeT) (oid : Nat)
    (h : tr.sellOrderId = oid) :
    sellAlloc (ts ++ [tr]) oid = sellAlloc ts oid + tr.quantity := by
  rw [sellAlloc_append, if_pos h]

theorem sellAlloc_append_ne (ts : List TradeT) (tr : TradeT) (oid : Nat)
    (h : tr.sellOrderId ≠ oid) :
    sellAlloc (ts ++ [tr]) oid = sellAlloc ts oid := by
  rw [sellAlloc_append, if_neg h]
  omega

theorem matchStep_strip (cfg : ExchangeConfig) (s s2 : MatchState)
    (h : matchStep cfg s = .next s2) :
    s2.buys.map stripFilled = s.buys.map stripFilled ∧
    s2.sells.map stripFilled = s.sells.map stripFilled := by
  obtain ⟨hb, hs, _, hcase⟩ := matchStep_next_elim cfg s s2 h
  rcases hcase with ⟨_, rfl⟩ | ⟨_, rfl⟩
  · exact ⟨map_set_filled stripFilled (fun o f => rfl) s.buys s.buyIdx hb _,
      map_set_filled stripFilled (fun o f => rfl) s.sells s.sellIdx hs _⟩
  · exact ⟨rfl, rfl⟩

theorem matchLoop_strip (cfg : ExchangeConfig) (fuel : Nat) (s st : MatchState)
    (h : matchLoop cfg fuel s = some st) :
    st.buys.map stripFilled = s.buys.map stripFilled ∧
    st.sells.map stripFilled = s.sells.map stripFilled := by
  refine matchLoop_inv cfg
    (fun x => x.buys.map stripFilled = s.buys.map stripFilled ∧
      x.sells.map stripFilled = s.sells.map stripFilled) ?_ fuel s st h ⟨rfl, rfl⟩
  intro s1 s2 hstep hP
  have h2 := matchStep_strip cfg s1 s2 hstep
  exact ⟨h2.1.trans hP.1, h2.2.trans hP.2⟩

theorem tradeLink_transport (s s2 : MatchState)
    (hbm : s2.buys.map stripFilled = s.buys.map stripFilled)
    (hsm : s2.sells.map stripFilled = s.sells.map stripFilled)
    (t : TradeT) (ht : TradeLink s t) : TradeLink s2 t := by
  obtain ⟨i, j, hi, hj, h1, h2, h3⟩ := ht
  have hlb := map_eq_length stripFilled hbm
  have hls := map_eq_length stripFilled hsm
  have hi2 : i < s2.buys.length := by omega
  have hj2 : j < s2.sells.length := by omega
  have hgb := map_eq_get stripFilled hbm i hi2 hi
  have hgs := map_eq_get stripFilled hsm j hj2 hj
  refine ⟨i, j, hi2, hj2, ?_, ?_, ?_⟩
  · rw [h1]
    exact (congrArg Order.id hgb).symm
  · rw [h2]
    exact (congrArg Order.id hgs).symm
  · rw [h3]
    exact (tradePrice_congr (congrArg Order.id hgb) (congrArg Order.price hgb)
      (congrArg Order.id hgs) (congrArg Order.price hgs)).symm

theorem tradeSucc_tradeLink (cfg : ExchangeConfig) (s : MatchState)
    (hb : s.buyIdx < s.buys.length) (hs : s.sellIdx < s.sells.length) :
    TradeLink (tradeSucc cfg s hb hs)
      (mkTrade cfg (s.buys.get ⟨s.buyIdx, hb⟩) (s.sells.get ⟨s.sellIdx, hs⟩)
        (tradable s hb hs)) := by
  have h1 : s.buyIdx < (tradeSucc cfg s hb hs).buys.length := by
    show s.buyIdx < (s.buys.set s.buyIdx _).length
    rw [List.length_set]
    exact hb
  have h2 : s.sellIdx < (tradeSucc cfg s hb hs).sells.length := by
    show s.sellIdx < (s.sells.set s.sellIdx _).length
    rw [List.length_set]
    exact hs
  have g1 : (tradeSucc cfg s hb hs).buys.get ⟨s.buyIdx, h1⟩ =
      { s.buys.get ⟨s.buyIdx, hb⟩ with
        filled := (s.buys.get ⟨s.buyIdx, hb⟩).filled + tradable s hb hs } := by
    show (s.buys.set s.buyIdx _).get ⟨s.buyIdx, _⟩ = _
    exact get_set_self _ _ _ _
  have g2 : (tradeSucc cfg s hb hs).sells.get ⟨s.sellIdx, h2⟩ =
      { s.sells.get ⟨s.sellIdx, hs⟩ with
        filled := (s.sells.get ⟨s.sellIdx, hs⟩).filled + tradable s hb hs } := by
    show (s.sells.set s.sellIdx _).get ⟨s.sellIdx, _⟩ = _
    exact get_set_self _ _ _ _
  refine ⟨s.buyIdx, s.sellIdx, h1, h2, ?_, ?_, ?_⟩
  · rw [g1]
    rfl
  · rw [g2]
    rfl
  · rw [g1, g2]
    exact tradePrice_congr rfl rfl rfl rfl

theorem matchStep_tradeLink (cfg : ExchangeConfig) (s s2 : MatchState)
    (h : matchStep cfg s = .next s2) (hall : ∀ t ∈ s.trades, TradeLink s t) :
    ∀ t ∈ s2.trades, TradeLink s2 t := by
  intro t ht
  have hstrip := matchStep_strip cfg s s2 h
  obtain ⟨hb, hs, _, hcase⟩ := matchStep_next_elim cfg s s2 h
  rcases hcase with ⟨_, hsucc⟩ | ⟨_, hsucc⟩
  · subst hsucc
    rcases List.mem_append.mp
      (show t ∈ s.trades ++ [mkTrade cfg (s.buys.get ⟨s.buyIdx, hb⟩)
        (s.sells.get ⟨s.sellIdx, hs⟩) (tradable s hb hs)] from ht) with hm | hm
    · exact tradeLink_transport s _ hstrip.1 hstrip.2 t (hall t hm)
    · rw [List.mem_singleton.mp hm]
      exact tradeSucc_tradeLink cfg s hb hs
  · subst hsucc
    exact hall t ht

/-- C1: every trade emitted by the matching engine links a buy-side
input order and a sell-side input order of the group; its execution
price is the buy order's limit price when `buy.id < sell.id` and the
sell order's limit price otherwise, i.e. the limit price of the
smaller-id (maker) order whenever the ids differ — always one of the
two original limit prices, never interpolated. -/
theorem maker_price_rule (cfg : ExchangeConfig) (fuel : Nat) (orders : List Order)
    (st : MatchState) (h : match_orders_for_token cfg fuel orders = some st) :
    ∀ t ∈ st.trades, ∃ bo so : Order, bo ∈ orders ∧ so ∈ orders ∧
      bo.isBuyOrder = true ∧ so.isBuyOrder = false ∧
      t.buyOrderId = bo.id ∧ t.sellOrderId = so.id ∧
      t.price = (if bo.id < so.id then bo.price else so.price) := by
  intro t ht
  have hlink : ∀ t2 ∈ st.trades, TradeLink st t2 :=
    matchLoop_inv cfg (fun x => ∀ t2 ∈ x.trades, TradeLink x t2)
      (matchStep_tradeLink cfg) fuel (initState orders) st h (by intro t2 ht2; cases ht2)
  obtain ⟨i, j, hi, hj, h1, h2, h3⟩ := hlink t ht
  have hstrip := matchLoop_strip cfg fuel (initState orders) st h
  have hstrip1 : st.buys.map stripFilled = (sortBuys orders).map stripFilled := hstrip.1
  have hstrip2 : st.sells.map stripFilled = (sortSells orders).map stripFilled := hstrip.2
  have hlb := map_eq_length stripFilled hstrip1
  have hls := map_eq_length stripFilled hstrip2
  have hi2 : i < (sortBuys orders).length := by omega
  have hj2 : j < (sortSells orders).length := by omega
  have hgb := map_eq_get stripFilled hstrip1 i hi hi2
  have hgs := map_eq_get stripFilled hstrip2 j hj hj2
  refine ⟨(sortBuys orders).get ⟨i, hi2⟩, (sortSells orders).get ⟨j, hj2⟩, ?_, ?_, ?_, ?_,
    ?_, ?_, ?_⟩
  · exact List.mem_of_mem_filter
      ((List.perm_insertionSort BuyPriority _).mem_iff.mp (List.get_mem _ _ _))
  · exact List.mem_of_mem_filter
      ((List.perm_insertionSort SellPriority _).mem_iff.mp (List.get_mem _ _ _))
  · exact List.of_mem_filter
      ((List.perm_insertionSort BuyPriority _).mem_iff.mp (List.get_mem _ _ _))
  · have hmem := List.of_mem_filter
      ((List.perm_insertionSort SellPriority _).mem_iff.mp
        (List.get_mem (sortSells orders) j hj2))
    simpa using hmem
  · rw [h1]
    exact strip_id hgb
  · rw [h2]
    exact strip_id hgs
  · rw [h3]
    exact tradePrice_congr (strip_id hgb) (strip_price hgb)
      (strip_id hgs) (strip_price hgs)

theorem matchStep_allocInv (cfg : ExchangeConfig) (s s2 : MatchState)
    (h : matchStep cfg s = .next s2) (hinv : AllocInv s) : AllocInv s2 := by
  obtain ⟨hnb, hns, hba, hsa⟩ := hinv
  have hstrip := matchStep_strip cfg s s2 h
  obtain ⟨hb, hs, _, hcase⟩ := matchStep_next_elim cfg s s2 h
  rcases hcase with ⟨hq, hsucc⟩ | ⟨hq, hsucc⟩
  · subst hsucc
    have hmb : tradable s hb hs ≤
        (s.buys.get ⟨s.buyIdx, hb⟩).amount - (s.buys.get ⟨s.buyIdx, hb⟩).filled :=
      Nat.min_le_left _ _
    have hms : tradable s hb hs ≤
        (s.sells.get ⟨s.sellIdx, hs⟩).amount - (s.sells.get ⟨s.sellIdx, hs⟩).filled :=
      Nat.min_le_right _ _
    refine ⟨?_, ?_, ?_, ?_⟩
    · rw [map_id_eq_of_strip hstrip.1]
      exact hnb
    · rw [map_id_eq_of_strip hstrip.2]
      exact hns
    · intro i hi
      have hlenb : (tradeSucc cfg s hb hs).buys.length = s.buys.length := by
        show (s.buys.set s.buyIdx _).length = _
        exact List.length_set _ _ _
      have hi2 : i < s.buys.length := by omega
      by_cases hik : s.buyIdx = i
      · subst hik
        have hget : (tradeSucc cfg s hb hs).buys.get ⟨s.buyIdx, hi⟩ =
            { s.buys.get ⟨s.buyIdx, hb⟩ with
              filled := (s.buys.get ⟨s.buyIdx, hb⟩).filled + tradable s hb hs } := by
          show (s.buys.set s.buyIdx _).get ⟨s.buyIdx, _⟩ = _
          exact get_set_self _ _ _ _
        rw [hget]
        constructor
        · show buyAlloc (s.trades ++ [mkTrade cfg (s.buys.get ⟨s.buyIdx, hb⟩)
              (s.sells.get ⟨s.sellIdx, hs⟩) (tradable s hb hs)])
                (s.buys.get ⟨s.buyIdx, hb⟩).id =
              (s.buys.get ⟨s.buyIdx, hb⟩).filled + tradable s hb hs
          rw [buyAlloc_append_eq s.trades (mkTrade cfg (s.buys.get ⟨s.buyIdx, hb⟩)
              (s.sells.get ⟨s.sellIdx, hs⟩) (tradable s hb hs)) (s.buys.get ⟨s.buyIdx, hb⟩).id rfl,
            (hba s.buyIdx hb).1]
          rfl
        · show (s.buys.get ⟨s.buyIdx, hb⟩).filled + tradable s hb hs ≤
            (s.buys.get ⟨s.buyIdx, hb⟩).amount
          have h2 := (hba s.buyIdx hb).2
          omega
      · have hget : (tradeSucc cfg s hb hs).buys.get ⟨i, hi⟩ = s.buys.get ⟨i, hi2⟩ := by
          show (s.buys.set s.buyIdx _).get ⟨i, _⟩ = _
          exact get_set_ne _ _ _ _ hik _ _
        rw [hget]
        have hne : (s.buys.get ⟨s.buyIdx, hb⟩).id ≠ (s.buys.get ⟨i, hi2⟩).id :=
          nodup_id_ne hnb hb hi2 hik
        constructor
        · show buyAlloc (s.trades ++ [mkTrade cfg (s.buys.get ⟨s.buyIdx, hb⟩)
              (s.sells.get ⟨s.sellIdx, hs⟩) (tradable s hb hs)])
                (s.buys.get ⟨i, hi2⟩).id = (s.buys.get ⟨i, hi2⟩).filled
          rw [buyAlloc_append_ne s.trades (mkTrade cfg (s.buys.get ⟨s.buyIdx, hb⟩)
              (s.sells.get ⟨s.sellIdx, hs⟩) (tradable s hb hs)) (s.buys.get ⟨i, hi2⟩).id hne]
          exact (hba i hi2).1
        · exact (hba i hi2).2
    · intro j hj
      have hlens : (tradeSucc cfg s hb hs).sells.length = s.sells.length := by
        show (s.sells.set s.sellIdx _).length = _
        exact List.length_set _ _ _
      have hj2 : j < s.sells.length := by omega
      by_cases hjk : s.sellIdx = j
      · subst hjk
        have hget : (tradeSucc cfg s hb hs).sells.get ⟨s.sellIdx, hj⟩ =
            { s.sells.get ⟨s.sellIdx, hs⟩ with
              filled := (s.sells.get ⟨s.sellIdx, hs⟩).filled + tradable s hb hs } := by
          show (s.sells.set s.sellIdx _).get ⟨s.sellIdx, _⟩ = _
          exact get_set_self _ _ _ _
        rw [hget]
        constructor
        · show sellAlloc (s.trades ++ [mkTrade cfg (s.buys.get ⟨s.buyIdx, hb⟩)
              (s.sells.get ⟨s.sellIdx, hs⟩) (tradable s hb hs)])
                (s.sells.get ⟨s.sellIdx, hs⟩).id =
              (s.sells.get ⟨s.sellIdx, hs⟩).filled + tradable s hb hs
          rw [sellAlloc_append_eq s.trades (mkTrade cfg (s.buys.get ⟨s.buyIdx, hb⟩)
              (s.sells.get ⟨s.sellIdx, hs⟩) (tradable s hb hs)) (s.sells.get ⟨s.sellIdx, hs⟩).id rfl,
            (hsa s.sellIdx hs).1]
          rfl
        · show (s.sells.get ⟨s.sellIdx, hs⟩).filled + tradable s hb hs ≤
            (s.sells.get ⟨s.sellIdx, hs⟩).amount
          have h2 := (hsa s.sellIdx hs).2
          omega
      · have hget : (tradeSucc cfg s hb hs).sells.get ⟨j, hj⟩ = s.sells.get ⟨j, hj2⟩ := by
          show (s.sells.set s.sellIdx _).get ⟨j, _⟩ = _
          exact get_set_ne _ _ _ _ hjk _ _
        rw [hget]
        have hne : (s.sells.get ⟨s.sellIdx, hs⟩).id ≠ (s.sells.get ⟨j, hj2⟩).id :=
          nodup_id_ne hns hs hj2 hjk
        constructor
        · show sellAlloc (s.trades ++ [mkTrade cfg (s.buys.get ⟨s.buyIdx, hb⟩)
              (s.sells.get ⟨s.sellIdx, hs⟩) (tradable s hb hs)])
                (s.sells.get ⟨j, hj2⟩).id = (s.sells.get ⟨j, hj2⟩).filled
          rw [sellAlloc_append_ne s.trades (mkTrade cfg (s.buys.get ⟨s.buyIdx, hb⟩)
              (s.sells.get ⟨s.sellIdx, hs⟩) (tradable s hb hs)) (s.sells.get ⟨j, hj2⟩).id hne]
          exact (hsa j hj2).1
        · exact (hsa j hj2).2
  · subst hsucc
    exact ⟨hnb, hns, hba, hsa⟩

theorem initState_allocInv (orders : List Order)
    (hz : ∀ o ∈ orders, o.filled = 0)
    (hnd : (orders.map Order.id).Nodup) : AllocInv (initState orders) := by
  have hnb : ((sortBuys orders).map Order.id).Nodup := by
    have hperm := List.perm_insertionSort BuyPriority (orders.filter fun o => o.isBuyOrder)
    have hsub : ((orders.filter fun o => o.isBuyOrder).map Order.id).Nodup :=
      ((List.filter_sublist orders).map Order.id).nodup hnd
    exact ((hperm.map Order.id).symm).nodup hsub
  have hns : ((sortSells orders).map Order.id).Nodup := by
    have hperm := List.perm_insertionSort SellPriority (orders.filter fun o => !o.isBuyOrder)
    have hsub : ((orders.filter fun o => !o.isBuyOrder).map Order.id).Nodup :=
      ((List.filter_sublist orders).map Order.id).nodup hnd
    exact ((hperm.map Order.id).symm).nodup hsub
  refine ⟨hnb, hns, ?_, ?_⟩
  · intro i hi
    have hi2 : i < (sortBuys orders).length := hi
    have hmem : (sortBuys orders).get ⟨i, hi2⟩ ∈ orders :=
      List.mem_of_mem_filter
        ((List.perm_insertionSort BuyPriority _).mem_iff.mp (List.get_mem _ _ _))
    have hz2 : ((sortBuys orders).get ⟨i, hi2⟩).filled = 0 := hz _ hmem
    constructor
    · show buyAlloc [] ((sortBuys orders).get ⟨i, hi2⟩).id =
        ((sortBuys orders).get ⟨i, hi2⟩).filled
      rw [hz2]
      rfl
    · show ((sortBuys orders).get ⟨i, hi2⟩).filled ≤ ((sortBuys orders).get ⟨i, hi2⟩).amount
      omega
  · intro j hj
    have hj2 : j < (sortSells orders).length := hj
    have hmem : (sortSells orders).get ⟨j, hj2⟩ ∈ orders :=
      List.mem_of_mem_filter
        ((List.perm_insertionSort SellPriority _).mem_iff.mp (List.get_mem _ _ _))
    have hz2 : ((sortSells orders).get ⟨j, hj2⟩).filled = 0 := hz _ hmem
    constructor
    · show sellAlloc [] ((sortSells orders).get ⟨j, hj2⟩).id =
        ((sortSells orders).get ⟨j, hj2⟩).filled
      rw [hz2]
      rfl
    · show ((sortSells orders).get ⟨j, hj2⟩).filled ≤ ((sortSells orders).get ⟨j, hj2⟩).amount
      omega

/-- C4: with all input orders starting at `filled = 0` and ids unique
within the batch, every input order corresponds to a final order of the
matching state that agrees with it on everything but `filled`; the
total quantity the emitted trades allocate to it equals that final
`filled` value (a sum of naturals starting from 0, hence the field only
ever grew), and never exceeds the order's original quantity. -/
theorem fill_conservation (cfg : ExchangeConfig) (fuel : Nat) (orders : List Order)
    (st : MatchState)
    (hz : ∀ o ∈ orders, o.filled = 0)
    (hnd : (orders.map Order.id).Nodup)
    (h : match_orders_for_token cfg fuel orders = some st) :
    ∀ o ∈ orders, ∃ f : Order, (f ∈ st.buys ∨ f ∈ st.sells) ∧
      stripFilled f = stripFilled o ∧
      (if o.isBuyOrder = true then buyAlloc st.trades f.id else sellAlloc st.trades f.id)
        = f.filled ∧
      f.filled ≤ f.amount := by
  have hinv : AllocInv st :=
    matchLoop_inv cfg AllocInv (matchStep_allocInv cfg) fuel (initState orders) st h
      (initState_allocInv orders hz hnd)
  have hstrip := matchLoop_strip cfg fuel (initState orders) st h
  have hstrip1 : st.buys.map stripFilled = (sortBuys orders).map stripFilled := hstrip.1
  have hstrip2 : st.sells.map stripFilled = (sortSells orders).map stripFilled := hstrip.2
  have hlb := map_eq_length stripFilled hstrip1
  have hls := map_eq_length stripFilled hstrip2
  intro o ho
  by_cases hbo : o.isBuyOrder = true
  · have h1 : o ∈ sortBuys orders :=
      (List.perm_insertionSort BuyPriority _).mem_iff.mpr (List.mem_filter.mpr ⟨ho, hbo⟩)
    obtain ⟨⟨i, hi⟩, hgi⟩ := List.mem_iff_get.mp h1
    have hi2 : i < st.buys.length := by omega
    have hgb := map_eq_get stripFilled hstrip1 i hi2 hi
    refine ⟨st.buys.get ⟨i, hi2⟩, Or.inl (List.get_mem _ _ _), ?_, ?_, ?_⟩
    · rw [hgb, hgi]
    · rw [if_pos hbo]
      exact (hinv.2.2.1 i hi2).1
    · exact (hinv.2.2.1 i hi2).2
  · have hbo2 : (!o.isBuyOrder) = true := by simp [hbo]
    have h1 : o ∈ sortSells orders :=
      (List.perm_insertionSort SellPriority _).mem_iff.mpr (List.mem_filter.mpr ⟨ho, hbo2⟩)
    obtain ⟨⟨j, hj⟩, hgj⟩ := List.mem_iff_get.mp h1
    have hj2 : j < st.sells.length := by omega
    have hgs := map_eq_get stripFilled hstrip2 j hj2 hj
    refine ⟨st.sells.get ⟨j, hj2⟩, Or.inr (List.get_mem _ _ _), ?_, ?_, ?_⟩
    · rw [hgs, hgj]
    · rw [if_neg hbo]
      exact (hinv.2.2.2 j hj2).1
    · exact (hinv.2.2.2 j hj2).2

theorem fill_conservation_witness :
    (∀ o ∈ wOrders, o.filled = 0) ∧ ((wOrders.map Order.id).Nodup) ∧
    (match_orders_for_token defaultConfig 10 wOrders = some wSt) ∧
    ∀ o ∈ wOrders, ∃ f : Order, (f ∈ wSt.buys ∨ f ∈ wSt.sells) ∧
      stripFilled f = stripFilled o ∧
      (if o.isBuyOrder = true then buyAlloc wSt.trades f.id else sellAlloc wSt.trades f.id)
        = f.filled ∧
      f.filled ≤ f.amount :=
  ⟨by decide, by decide, by decide,
    fill_conservation defaultConfig 10 wOrders wSt (by decide) (by decide) (by decide)⟩

theorem maker_price_rule_witness :
    (match_orders_for_token defaultConfig 10 wOrders = some wSt) ∧
    ∀ t ∈ wSt.trades, ∃ bo so : Order, bo ∈ wOrders ∧ so ∈ wOrders ∧
      bo.isBuyOrder = true ∧ so.isBuyOrder = false ∧
      t.buyOrderId = bo.id ∧ t.sellOrderId = so.id ∧
      t.price = (if bo.id < so.id then bo.price else so.price) :=
  ⟨by decide, maker_price_rule defaultConfig 10 wOrders wSt (by decide)⟩

end StockExchange
